import Mathlib

/-!
Verification development for the GrammarMaster quiz application.

The source is a single React component (`App`) driven by user events, plus a
static question bank and the data model in `src/types.ts`.  We shallowly embed
the component's state (`useState` hooks) as a record `AppState`, each event
handler as a pure function on `AppState`, and the user-visible event system as
a step function gated exactly by which controls each rendered view exposes.
Randomness (`Math.random`) is embedded as an explicit list of choices fed to
the Fisher-Yates shuffle.
-/

namespace GrammarMaster

/-- `Difficulty` enum from `src/types.ts` (values are display strings). -/
inductive Difficulty where
  | Beginner
  | Intermediate
  | Advanced
deriving DecidableEq, Repr

/-- `GrammarCategory` enum from `src/types.ts`. -/
inductive GrammarCategory where
  | NonFinite
  | RelativeClause
  | AdverbialClause
  | Conjunction
  | NounClause
  | Tense
deriving DecidableEq, Repr

/-- `Option` interface from `src/types.ts` (renamed: `Option` is taken in Lean). -/
structure QOption where
  id : String
  text : String
deriving DecidableEq, Repr

/-- `Explanation` interface from `src/types.ts` (`exampleText` embeds the
source field `example`, a keyword in Lean). -/
structure Explanation where
  correctAnswer : String
  rule : String
  exampleText : String
  commonMistake : String
  reviewLink : Option String := none
deriving DecidableEq, Repr

/-- `Question` interface from `src/types.ts`. -/
structure Question where
  id : Nat
  sentence : String
  options : List QOption
  correctOptionId : String
  difficulty : Difficulty
  category : GrammarCategory
  explanation : Explanation
deriving DecidableEq, Repr

/-- `UserAnswer` interface from `src/types.ts`. -/
structure UserAnswer where
  questionId : Nat
  selectedOptionId : String
  isCorrect : Bool
deriving DecidableEq, Repr

/-- One JS array swap `[a[i], a[j]] = [a[j], a[i]]`; identity when an index is
out of bounds (which never happens in the source loop). -/
def listSwap (l : List α) (i j : Nat) : List α :=
  match l[i]?, l[j]? with
  | some a, some b => (l.set i b).set j a
  | _, _ => l

/-- The `for (let i = len - 1; i > 0; i--)` loop body of `shuffleArray`:
the counter is the first `Nat`, the random draws `Math.floor(Math.random() * (i + 1))`
are consumed from the list, one per iteration. -/
def fyLoop : List α → Nat → List Nat → List α
  | l, 0, _ => l
  | l, _ + 1, [] => l
  | l, i + 1, j :: js => fyLoop (listSwap l (i + 1) j) i js

/-- `shuffleArray` from the source: Fisher-Yates over a copy of the input,
parameterised by the sequence of random draws. -/
def shuffleArray (l : List α) (js : List Nat) : List α :=
  fyLoop l (l.length - 1) js

/-- A draw sequence is valid for a loop starting at counter `i` when it has one
draw per iteration and the draw at counter `c` lies in `[0, c]`, exactly the
range of `Math.floor(Math.random() * (c + 1))`. -/
def validChoices : Nat → List Nat → Bool
  | 0, [] => true
  | 0, _ :: _ => false
  | _ + 1, [] => false
  | i + 1, j :: js => j ≤ i + 1 && validChoices i js

/-- All valid draw sequences for a loop starting at counter `i`
(the uniform sample space of the shuffle). -/
def choiceSeqs : Nat → List (List Nat)
  | 0 => [[]]
  | i + 1 => (List.range (i + 2)).flatMap (fun j => (choiceSeqs i).map (j :: ·))

/-- The component state: one field per `useState` hook of `App`.
`filterDifficulty`/`filterCategory` use `none` for the wildcard value `"全部"`,
and `timerDuration`/`timeRemaining`/`startTime` use `none` for JS `null`. -/
structure AppState where
  isStarted : Bool
  currentIndex : Nat
  selectedOptionId : Option String
  isSubmitted : Bool
  answers : List UserAnswer
  isFinished : Bool
  filterDifficulty : Option Difficulty
  filterCategory : Option GrammarCategory
  timerDuration : Option Nat
  timeRemaining : Option Nat
  startTime : Option Nat
  allQuestions : List Question
deriving DecidableEq, Repr

/-- The `useState` initial values, with the working set drawn by
`shuffleArray(questions).slice(0, 20)`; `bank` is the static `questions` import
and `js` the random draws of the initial shuffle. -/
def mkInitialState (bank : List Question) (js : List Nat) : AppState where
  isStarted := false
  currentIndex := 0
  selectedOptionId := none
  isSubmitted := false
  answers := []
  isFinished := false
  filterDifficulty := none
  filterCategory := none
  timerDuration := none
  timeRemaining := none
  startTime := none
  allQuestions := (shuffleArray bank js).take 20

/-- The `filteredQuestions` memo: the working set filtered by the two filters,
a filter matching everything when set to `"全部"` (`none`). -/
def filteredQuestions (s : AppState) : List Question :=
  s.allQuestions.filter fun q =>
    (match s.filterDifficulty with
      | none => true
      | some d => q.difficulty == d) &&
    (match s.filterCategory with
      | none => true
      | some c => q.category == c)

/-- `const currentQuestion = filteredQuestions[currentIndex]`
(`none` embeds JS `undefined`). -/
def currentQuestion (s : AppState) : Option Question :=
  (filteredQuestions s)[s.currentIndex]?

/-- `handleStart`; `now` is `Date.now()`.  The timer is initialised only when
`timerDuration` is truthy (JS: not `null` and not `0`). -/
def handleStart (now : Nat) (s : AppState) : AppState :=
  if (filteredQuestions s).length = 0 then s
  else
    { s with
      isStarted := true
      startTime := some now
      timeRemaining :=
        match s.timerDuration with
        | some d => if d = 0 then s.timeRemaining else some d
        | none => s.timeRemaining }

/-- `handleOptionClick`. -/
def handleOptionClick (optionId : String) (s : AppState) : AppState :=
  if s.isSubmitted then s else { s with selectedOptionId := some optionId }

/-- JS truthiness of `selectedOptionId` (`string | null`): falsy exactly for
`null` and the empty string. -/
def selectedTruthy (s : AppState) : Bool :=
  match s.selectedOptionId with
  | none => false
  | some oid => oid != ""

/-- `handleSubmit`: guarded by `!selectedOptionId || !currentQuestion`;
appends the graded `UserAnswer` and locks the question.  Note the source has
no `isSubmitted` guard here. -/
def handleSubmit (s : AppState) : AppState :=
  if selectedTruthy s = false then s
  else
    match s.selectedOptionId, currentQuestion s with
    | some oid, some q =>
        { s with
          answers := s.answers ++
            [{ questionId := q.id
               selectedOptionId := oid
               isCorrect := oid == q.correctOptionId }]
          isSubmitted := true }
    | _, _ => s

/-- `handleNext`: advance and clear the per-question state, or finish when on
the last question.  `currentIndex < filteredQuestions.length - 1` with Nat
truncated subtraction agrees with the JS comparison (for `length = 0` both
sides take the else branch). -/
def handleNext (s : AppState) : AppState :=
  if s.currentIndex < (filteredQuestions s).length - 1 then
    { s with
      currentIndex := s.currentIndex + 1
      selectedOptionId := none
      isSubmitted := false }
  else
    { s with isFinished := true }

/-- `handleRestart`: resample the working set and reset the session state.
The filters, `timerDuration` and `startTime` are not touched. -/
def handleRestart (bank : List Question) (js : List Nat) (s : AppState) : AppState :=
  { s with
    allQuestions := (shuffleArray bank js).take 20
    currentIndex := 0
    selectedOptionId := none
    isSubmitted := false
    answers := []
    isFinished := false
    isStarted := false
    timeRemaining := none }

/-- The second branch of the timer `useEffect`: when the remaining time is
exactly `0` and the session is not finished, force it to finished.  This
effect re-runs after every state change of its dependencies. -/
def timerEffect (s : AppState) : AppState :=
  if s.timeRemaining = some 0 ∧ s.isFinished = false then
    { s with isFinished := true }
  else s

/-- One firing of the interval callback: it exists only while
`isStarted && !isFinished && timeRemaining !== null && timeRemaining > 0`,
decrements the remaining time, and the re-run of the effect then finishes the
session if the time just reached `0`. -/
def tick (s : AppState) : AppState :=
  match s.timeRemaining with
  | some (t + 1) =>
      if s.isStarted = true ∧ s.isFinished = false then
        timerEffect { s with timeRemaining := some t }
      else s
  | _ => s

/-- `score`, derived state. -/
def score (s : AppState) : Nat :=
  (s.answers.filter fun a => a.isCorrect).length

/-- `total`, derived state. -/
def total (s : AppState) : Nat :=
  (filteredQuestions s).length

/-- `Math.round` on a non-negative JS number, in exact rational arithmetic:
round half away from zero, i.e. `⌊x + 1/2⌋`. -/
def jsRound (x : ℚ) : ℤ := ⌊x + 1 / 2⌋

/-- `Math.round((score / total) * 100)` guarded by `total > 0`, as a function
of the two counts. -/
def percentageOf (sc tot : Nat) : ℚ :=
  if 0 < tot then (jsRound ((sc : ℚ) / (tot : ℚ) * 100) : ℚ) else 0

/-- `percentage = total > 0 ? Math.round((score / total) * 100) : 0`. -/
def percentage (s : AppState) : ℚ :=
  percentageOf (score s) (total s)

/-- `getDetailedEvaluation` from the source, verbatim tier bounds and texts. -/
def getDetailedEvaluation (p : ℚ) : String :=
  if p = 100 then "卓越的表现！你不仅展现了扎实的语法功底，更体现了对英语逻辑结构的深刻理解。从非谓语动词的微妙变化到复杂从句的精准引导，你都游刃有余。建议开始尝试阅读原版学术文章或文学作品，进一步提升语感。"
  else if 85 ≤ p then "非常优秀！你已经构建了完整的语法体系，能够准确辨析绝大多数高频考点。目前的失分点可能集中在一些极具迷惑性的特殊用法或长难句的逻辑拆解上。建议针对错题所属的分类（如定语从句或非谓语）进行专项深度复习，追求极致的严谨。"
  else if 70 ≤ p then "表现良好。你对核心语法规则有清晰的认识，但在实际应用中仍存在一定的思维盲区，尤其是在多种语法现象交织的情况下容易混淆。建议在练习时多问自己‘为什么不选其他项’，通过排除法强化对干扰项特征的识别能力。"
  else if 50 ≤ p then "基础尚可，但仍有较大的提升空间。目前的得分反映出你在某些关键考点（如时态语态或状语从句）上存在概念模糊的情况。建议回归课本，系统性地梳理语法图谱，并结合本次练习中的‘详解卡片’进行针对性巩固，建立更稳固的知识连接。"
  else "目前的成绩提醒你需要重新审视自己的学习策略。语法是语言的骨架，基础不牢会直接限制阅读和写作能力的提升。不要被挫折打败，建议从最基础的简单句结构开始复习，每天坚持完成一组20题的练习，并逐一消化解析内容。坚持一个月，你一定会看到质的飞跃。"

/-- The five feedback texts of `getDetailedEvaluation`, by tier index. -/
def tierText : Nat → String
  | 0 => getDetailedEvaluation 100
  | 1 => getDetailedEvaluation 85
  | 2 => getDetailedEvaluation 70
  | 3 => getDetailedEvaluation 50
  | _ => getDetailedEvaluation 0

/-- The user-visible events: one per interactive control of the four views,
plus the autonomous timer tick.  `start` carries `Date.now()`, `restart` the
random draws of its resample. -/
inductive Ev where
  | start (now : Nat)
  | selectOpt (optionId : String)
  | submit
  | next
  | restart (js : List Nat)
  | setDifficulty (f : Option Difficulty)
  | setCategory (f : Option GrammarCategory)
  | homeSetDifficulty (f : Option Difficulty)
  | homeSetTimer (d : Option Nat)
  | resetFilters
  | tick

/-- The question view is rendered when the session is started, not finished,
and the filtered set is non-empty (the render order of `App`). -/
def questionView (s : AppState) : Bool :=
  s.isStarted && !s.isFinished && (filteredQuestions s).length != 0

/-- One user-visible transition: each handler fires only when its control is
rendered (and enabled) in the current view, exactly as in the component's
render order — Home when `!isStarted`, Results when `isFinished`, Empty when
the filtered set is empty, Question otherwise. -/
def step (bank : List Question) (e : Ev) (s : AppState) : AppState :=
  match e with
  | .start now => if !s.isStarted then handleStart now s else s
  | .selectOpt oid => if questionView s then handleOptionClick oid s else s
  | .submit =>
      if questionView s && !s.isSubmitted && selectedTruthy s then handleSubmit s else s
  | .next => if questionView s && s.isSubmitted then handleNext s else s
  | .restart js => if s.isStarted && s.isFinished then handleRestart bank js s else s
  | .setDifficulty f =>
      if questionView s then
        { s with filterDifficulty := f, currentIndex := 0, answers := [] }
      else s
  | .setCategory f =>
      if questionView s then
        { s with filterCategory := f, currentIndex := 0, answers := [] }
      else s
  | .homeSetDifficulty f => if !s.isStarted then { s with filterDifficulty := f } else s
  | .homeSetTimer d =>
      if !s.isStarted && (d == none || d == some 120 || d == some 300 || d == some 600) then
        { s with timerDuration := d }
      else s
  | .resetFilters =>
      if s.isStarted && !s.isFinished && (filteredQuestions s).length == 0 then
        { s with filterDifficulty := none, filterCategory := none }
      else s
  | .tick => tick s

/-- The states the running application can actually be in: an initial state
for some random draw, closed under user-visible transitions. -/
inductive Reachable (bank : List Question) : AppState → Prop where
  | init (js : List Nat) : Reachable bank (mkInitialState bank js)
  | step (e : Ev) {s : AppState} : Reachable bank s → Reachable bank (step bank e s)

/-- The inductive invariant of the session controller, established below for
every reachable state.  The conjuncts: Home has no progress; the answers list
never outruns the question the user is on; an empty filtered set pins the
index to `0` with no recorded answers; a non-empty filtered set bounds the
index; the timer duration is one of the four offered values; the working set
is a 20-element sample of the bank. -/
def Inv (bank : List Question) (s : AppState) : Prop :=
  (s.isStarted = false → s.currentIndex = 0 ∧ s.answers = [] ∧ s.isSubmitted = false)
  ∧ s.answers.length ≤ s.currentIndex + (if s.isSubmitted then 1 else 0)
  ∧ ((filteredQuestions s).length = 0 → s.currentIndex = 0 ∧ s.answers = [])
  ∧ (0 < (filteredQuestions s).length → s.currentIndex < (filteredQuestions s).length)
  ∧ (s.timerDuration = none ∨ s.timerDuration = some 120 ∨
      s.timerDuration = some 300 ∨ s.timerDuration = some 600)
  ∧ (∃ js, s.allQuestions = (shuffleArray bank js).take 20)

/-- The tier selector implicit in `getDetailedEvaluation`'s `if` chain. -/
def tierIndex (p : ℚ) : Nat :=
  if p = 100 then 0
  else if 85 ≤ p then 1
  else if 70 ≤ p then 2
  else if 50 ≤ p then 3
  else 4

/-- A sample question (the bank itself ships outside `src/`; any concrete
record of the `Question` interface serves for concrete runs). -/
def q1 : Question where
  id := 1
  sentence := "He ______ to school every day."
  options := [⟨"a", "goes"⟩, ⟨"b", "go"⟩]
  correctOptionId := "a"
  difficulty := .Beginner
  category := .Tense
  explanation :=
    { correctAnswer := "goes"
      rule := "Third person singular."
      exampleText := "She goes home."
      commonMistake := "Using the base form." }

/-- A one-question bank for concrete runs. -/
def bank1 : List Question := [q1]

/-- Concrete run: start the session and pick option `"a"` (not yet submitted). -/
def pickedState : AppState :=
  step bank1 (.selectOpt "a") (step bank1 (.start 0) (mkInitialState bank1 []))

/-- Concrete run: start the session, pick option `"a"`, submit.  The resulting
state has the current question submitted with the selection still stored. -/
def submittedState : AppState :=
  step bank1 .submit pickedState

/-- Concrete run: start the session, then narrow the difficulty filter so the
filtered set becomes empty. -/
def emptyFilterState : AppState :=
  step bank1 (.setDifficulty (some .Advanced)) (step bank1 (.start 0) (mkInitialState bank1 []))

/-- Concrete run: configure a 120-second timer on the home screen and start. -/
def timedState : AppState :=
  step bank1 (.start 5) (step bank1 (.homeSetTimer (some 120)) (mkInitialState bank1 []))

open List

theorem length_listSwap (l : List α) (i j : Nat) : (listSwap l i j).length = l.length := by
  unfold listSwap
  split <;> simp

theorem length_fyLoop (i : Nat) (l : List α) (js : List Nat) :
    (fyLoop l i js).length = l.length := by
  induction i generalizing l js with
  | zero => rfl
  | succ i ih =>
    cases js with
    | nil => rfl
    | cons j t => rw [fyLoop, ih, length_listSwap]

theorem length_shuffleArray (l : List α) (js : List Nat) :
    (shuffleArray l js).length = l.length :=
  length_fyLoop _ l js

theorem cons_set_perm (t : List α) (m : Nat) (a b : α) (hb : t[m]? = some b) :
    b :: t.set m a ~ a :: t := by
  induction t generalizing m with
  | nil => simp at hb
  | cons y t ih =>
    cases m with
    | zero =>
      simp only [List.getElem?_cons_zero, Option.some.injEq] at hb
      subst hb
      exact List.Perm.swap a y t
    | succ m =>
      simp only [List.getElem?_cons_succ] at hb
      calc b :: (y :: t).set (m + 1) a = b :: y :: t.set m a := rfl
        _ ~ y :: b :: t.set m a := List.Perm.swap y b _
        _ ~ y :: a :: t := (ih m hb).cons y
        _ ~ a :: y :: t := List.Perm.swap a y t

theorem set_set_swap_perm (l : List α) (i j : Nat) (a b : α)
    (ha : l[i]? = some a) (hb : l[j]? = some b) : (l.set i b).set j a ~ l := by
  induction l generalizing i j with
  | nil => simp at ha
  | cons x t ih =>
    cases i with
    | zero =>
      simp only [List.getElem?_cons_zero, Option.some.injEq] at ha
      subst ha
      cases j with
      | zero =>
        simp only [List.getElem?_cons_zero, Option.some.injEq] at hb
        subst hb
        simp
      | succ j =>
        simp only [List.getElem?_cons_succ] at hb
        exact cons_set_perm t j x b hb
    | succ i =>
      simp only [List.getElem?_cons_succ] at ha
      cases j with
      | zero =>
        simp only [List.getElem?_cons_zero, Option.some.injEq] at hb
        subst hb
        exact cons_set_perm t i x a ha
      | succ j =>
        simp only [List.getElem?_cons_succ] at hb
        exact (ih i j ha hb).cons x

theorem listSwap_perm (l : List α) (i j : Nat) : listSwap l i j ~ l := by
  unfold listSwap
  split
  case _ a b ha hb => exact set_set_swap_perm l i j a b ha hb
  case _ => exact List.Perm.refl l

theorem fyLoop_perm (i : Nat) (l : List α) (js : List Nat) : fyLoop l i js ~ l := by
  induction i generalizing l js with
  | zero => exact List.Perm.refl l
  | succ i ih =>
    cases js with
    | nil => exact List.Perm.refl l
    | cons j t => exact (ih (listSwap l (i + 1) j) t).trans (listSwap_perm l (i + 1) j)

theorem shuffleArray_perm (l : List α) (js : List Nat) : shuffleArray l js ~ l :=
  fyLoop_perm _ l js

theorem listSwap_append (A B : List α) (i j : Nat) (hi : i < A.length) (hj : j < A.length) :
    listSwap (A ++ B) i j = listSwap A i j ++ B := by
  unfold listSwap
  rw [List.getElem?_append_left hi, List.getElem?_append_left hj,
    List.getElem?_eq_getElem hi, List.getElem?_eq_getElem hj]
  simp only [List.set_append_left _ _ hi]
  rw [List.set_append_left _ _ (by simpa using hj)]

theorem fyLoop_append (i : Nat) (js : List Nat) (A B : List α)
    (hv : validChoices i js = true) (hi : i < A.length) :
    fyLoop (A ++ B) i js = fyLoop A i js ++ B := by
  induction i generalizing js A with
  | zero => rfl
  | succ i ih =>
    cases js with
    | nil => simp [validChoices] at hv
    | cons j t =>
      simp only [validChoices, Bool.and_eq_true, decide_eq_true_eq] at hv
      rw [fyLoop, fyLoop, listSwap_append A B (i + 1) j hi (Nat.lt_of_le_of_lt hv.1 hi)]
      exact ih t (listSwap A (i + 1) j) hv.2
        (by rw [length_listSwap]; exact Nat.lt_of_succ_lt hi)

theorem getElem?_listSwap_right (l : List α) (c j : Nat) (hc : c < l.length) (hj : j ≤ c) :
    (listSwap l c j)[c]? = l[j]? := by
  have hjl : j < l.length := Nat.lt_of_le_of_lt hj hc
  unfold listSwap
  rw [List.getElem?_eq_getElem hc, List.getElem?_eq_getElem hjl]
  by_cases h : j = c
  · subst h
    simp
    rw [List.getElem?_set_self (by simpa using hjl)]
  · rw [List.getElem?_set_ne h, List.getElem?_set_self (by simpa using hc)]

theorem drop_eq_singleton (L : List α) (n : Nat) (x : α) (hlen : L.length = n + 1)
    (hx : L[n]? = some x) : L.drop n = [x] := by
  have hn : n < L.length := by omega
  rw [List.drop_eq_getElem_cons hn, List.drop_eq_nil_of_le (by omega)]
  rw [List.getElem?_eq_getElem hn] at hx
  rw [Option.some.inj hx]

theorem fyLoop_succ_decomp (l : List α) (i j : Nat) (t : List Nat) (x : α)
    (hlen : l.length = i + 2) (hj : j ≤ i + 1) (hv : validChoices i t = true)
    (hx : l[j]? = some x) :
    fyLoop l (i + 1) (j :: t) = fyLoop ((listSwap l (i + 1) j).take (i + 1)) i t ++ [x] := by
  have hc : i + 1 < l.length := by omega
  have hsw : (listSwap l (i + 1) j)[i + 1]? = some x := by
    rw [getElem?_listSwap_right l (i + 1) j hc hj]; exact hx
  have hswlen : (listSwap l (i + 1) j).length = i + 2 := by
    rw [length_listSwap]; exact hlen
  have hdecomp : listSwap l (i + 1) j = (listSwap l (i + 1) j).take (i + 1) ++ [x] := by
    conv_lhs => rw [← List.take_append_drop (i + 1) (listSwap l (i + 1) j)]
    rw [drop_eq_singleton _ _ _ hswlen hsw]
  rw [fyLoop]
  conv_lhs => rw [hdecomp]
  exact fyLoop_append i t _ [x] hv (by rw [List.length_take]; omega)

theorem fyLoop_inj (i : Nat) (l : List α) (hnd : l.Nodup) (hlen : l.length = i + 1) :
    ∀ js js', validChoices i js = true → validChoices i js' = true →
      fyLoop l i js = fyLoop l i js' → js = js' := by
  induction i generalizing l with
  | zero =>
    intro js js' hv hv' _
    cases js with
    | nil =>
      cases js' with
      | nil => rfl
      | cons => simp [validChoices] at hv'
    | cons => simp [validChoices] at hv
  | succ i ih =>
    intro js js' hv hv' heq
    cases js with
    | nil => simp [validChoices] at hv
    | cons j t =>
    cases js' with
    | nil => simp [validChoices] at hv'
    | cons j' t' =>
    simp only [validChoices, Bool.and_eq_true, decide_eq_true_eq] at hv hv'
    have hjl : j < l.length := by omega
    have hj'l : j' < l.length := by omega
    rw [fyLoop_succ_decomp l i j t (l[j]) hlen hv.1 hv.2 (List.getElem?_eq_getElem hjl),
      fyLoop_succ_decomp l i j' t' (l[j']) hlen hv'.1 hv'.2
        (List.getElem?_eq_getElem hj'l)] at heq
    have hl1 : (fyLoop ((listSwap l (i + 1) j).take (i + 1)) i t).length = i + 1 := by
      rw [length_fyLoop, List.length_take, length_listSwap]; omega
    have hl2 : (fyLoop ((listSwap l (i + 1) j').take (i + 1)) i t').length = i + 1 := by
      rw [length_fyLoop, List.length_take, length_listSwap]; omega
    obtain ⟨hpre, hlast⟩ := List.append_inj heq (by rw [hl1, hl2])
    have hxx : l[j] = l[j'] := by simpa using hlast
    have hjj : j = j' := hnd.getElem_inj_iff.1 hxx
    subst hjj
    have hswnd : (listSwap l (i + 1) j).Nodup := (listSwap_perm l (i + 1) j).symm.nodup hnd
    have ht : t = t' :=
      ih ((listSwap l (i + 1) j).take (i + 1))
        ((List.take_sublist _ _).nodup hswnd)
        (by rw [List.length_take, length_listSwap]; omega)
        t t' hv.2 hv'.2 hpre
    rw [ht]

theorem fyLoop_surj (i : Nat) (l p : List α) (hlen : l.length = i + 1) (hp : p ~ l) :
    ∃ js, validChoices i js = true ∧ fyLoop l i js = p := by
  induction i generalizing l p with
  | zero =>
    obtain ⟨a, rfl⟩ := List.length_eq_one.1 hlen
    exact ⟨[], rfl, (List.perm_singleton.1 hp).symm⟩
  | succ i ih =>
    have hplen : p.length = i + 2 := by rw [hp.length_eq, hlen]
    have hip : i + 1 < p.length := by omega
    have hmeml : p[i + 1] ∈ l := hp.subset (List.getElem_mem hip)
    obtain ⟨j, hjl, hjx⟩ := List.getElem_of_mem hmeml
    have hj : j ≤ i + 1 := by omega
    have hxl : l[j]? = some p[i + 1] := by rw [List.getElem?_eq_getElem hjl, hjx]
    have hpd : p = p.take (i + 1) ++ [p[i + 1]] := by
      conv_lhs => rw [← List.take_append_drop (i + 1) p]
      rw [drop_eq_singleton p (i + 1) _ hplen (List.getElem?_eq_getElem hip)]
    have hLlen : (listSwap l (i + 1) j).length = i + 2 := by rw [length_listSwap, hlen]
    have hLx : (listSwap l (i + 1) j)[i + 1]? = some p[i + 1] := by
      rw [getElem?_listSwap_right l (i + 1) j (by omega) hj]; exact hxl
    have hLd : listSwap l (i + 1) j = (listSwap l (i + 1) j).take (i + 1) ++ [p[i + 1]] := by
      conv_lhs => rw [← List.take_append_drop (i + 1) (listSwap l (i + 1) j)]
      rw [drop_eq_singleton _ _ _ hLlen hLx]
    have hperm : p.take (i + 1) ~ (listSwap l (i + 1) j).take (i + 1) := by
      have h1 : p.take (i + 1) ++ [p[i + 1]] ~
          (listSwap l (i + 1) j).take (i + 1) ++ [p[i + 1]] := by
        rw [← hpd, ← hLd]
        exact hp.trans (listSwap_perm l (i + 1) j).symm
      exact (List.perm_append_right_iff _).1 h1
    have hAlen : ((listSwap l (i + 1) j).take (i + 1)).length = i + 1 := by
      rw [List.length_take, length_listSwap]; omega
    obtain ⟨t, hvt, hft⟩ := ih ((listSwap l (i + 1) j).take (i + 1)) (p.take (i + 1)) hAlen hperm
    refine ⟨j :: t, ?_, ?_⟩
    · simp [validChoices, hvt, hj]
    · rw [fyLoop_succ_decomp l i j t (p[i + 1]) hlen hj hvt hxl, hft, ← hpd]

theorem mem_choiceSeqs (i : Nat) (js : List Nat) :
    js ∈ choiceSeqs i ↔ validChoices i js = true := by
  induction i generalizing js with
  | zero => cases js <;> simp [choiceSeqs, validChoices]
  | succ i ih =>
    cases js with
    | nil => simp [choiceSeqs, validChoices]
    | cons j t =>
      simp only [choiceSeqs, List.mem_flatMap, List.mem_map, List.mem_range, validChoices,
        Bool.and_eq_true, decide_eq_true_eq]
      constructor
      · rintro ⟨a, ha, b, hb, heq⟩
        obtain ⟨rfl, rfl⟩ : a = j ∧ b = t := List.cons.inj heq
        exact ⟨by omega, (ih b).1 hb⟩
      · rintro ⟨hj, ht⟩
        exact ⟨j, by omega, t, (ih t).2 ht, rfl⟩

theorem nodup_choiceSeqs (i : Nat) : (choiceSeqs i).Nodup := by
  induction i with
  | zero => simp [choiceSeqs]
  | succ i ih =>
    rw [choiceSeqs]
    apply List.nodup_flatMap.2
    refine ⟨fun j _ => ih.map fun a b h => by simpa using h, ?_⟩
    apply (List.pairwise_lt_range _).imp
    intro a b hab x hxa hxb
    simp only [List.mem_map] at hxa hxb
    obtain ⟨ta, _, rfl⟩ := hxa
    obtain ⟨tb, _, heq⟩ := hxb
    have : b = a := (List.cons.inj heq).1
    omega

theorem shuffle_uniform {α : Type} [DecidableEq α] (l : List α) (hnd : l.Nodup)
    (p : List α) (hp : p ~ l) :
    ((choiceSeqs (l.length - 1)).map (fun js => shuffleArray l js)).count p = 1 := by
  rcases hnil : l with _ | ⟨a, l'⟩
  · subst hnil
    rw [List.perm_nil.1 hp]
    simp [choiceSeqs, shuffleArray, fyLoop]
  rw [← hnil]
  have hlen : l.length = (l.length - 1) + 1 := by rw [hnil]; simp
  · obtain ⟨js₀, hv₀, hf₀⟩ := fyLoop_surj (l.length - 1) l p hlen hp
    have hmem₀ : js₀ ∈ choiceSeqs (l.length - 1) := (mem_choiceSeqs _ js₀).2 hv₀
    rw [List.count_eq_countP, List.countP_map]
    have hcongr : ∀ js ∈ choiceSeqs (l.length - 1),
        (((· == p) ∘ fun js => shuffleArray l js) js = true) ↔ (decide (js = js₀) = true) := by
      intro js hjs
      simp only [Function.comp_apply, beq_iff_eq, decide_eq_true_eq]
      constructor
      · intro hjs_eq
        exact fyLoop_inj (l.length - 1) l hnd hlen js js₀
          ((mem_choiceSeqs _ js).1 hjs) hv₀ (by rw [hf₀]; exact hjs_eq)
      · rintro rfl
        exact hf₀
    rw [List.countP_congr hcongr]
    exact List.count_eq_one_of_mem (nodup_choiceSeqs (l.length - 1)) hmem₀

theorem questionView_iff (s : AppState) :
    questionView s = true ↔
      s.isStarted = true ∧ s.isFinished = false ∧ (filteredQuestions s).length ≠ 0 := by
  simp only [questionView, Bool.and_eq_true, Bool.not_eq_true', bne_iff_ne, ne_eq, and_assoc]

theorem inv_init (bank : List Question) (js : List Nat) :
    Inv bank (mkInitialState bank js) := by
  refine ⟨fun _ => ⟨rfl, rfl, rfl⟩, by simp [mkInitialState], fun _ => ⟨rfl, rfl⟩,
    fun h0 => h0, Or.inl rfl, ⟨js, rfl⟩⟩

theorem inv_step (bank : List Question) (e : Ev) (s : AppState) (h : Inv bank s) :
    Inv bank (step bank e s) := by
  obtain ⟨h1, h2, h3, h4, h5, h6⟩ := h
  cases e with
  | start now =>
    simp only [step]
    split
    · unfold handleStart
      split
      · exact ⟨h1, h2, h3, h4, h5, h6⟩
      · exact ⟨by simp, h2, h3, h4, h5, h6⟩
    · exact ⟨h1, h2, h3, h4, h5, h6⟩
  | selectOpt oid =>
    simp only [step]
    split
    · unfold handleOptionClick
      split
      · exact ⟨h1, h2, h3, h4, h5, h6⟩
      · exact ⟨h1, h2, h3, h4, h5, h6⟩
    · exact ⟨h1, h2, h3, h4, h5, h6⟩
  | submit =>
    simp only [step]
    split
    case isFalse => exact ⟨h1, h2, h3, h4, h5, h6⟩
    case isTrue hg =>
      simp only [Bool.and_eq_true, Bool.not_eq_true'] at hg
      obtain ⟨⟨hqv, hsub⟩, _⟩ := hg
      rw [questionView_iff] at hqv
      unfold handleSubmit
      split
      · exact ⟨h1, h2, h3, h4, h5, h6⟩
      · split
        case _ oid q _ hq =>
          obtain ⟨hidx, _⟩ := List.getElem?_eq_some_iff.1 hq
          simp only [hsub, if_neg Bool.false_ne_true] at h2
          refine ⟨?_, ?_, ?_, fun _ => hidx, h5, h6⟩
          · intro hc
            rw [hqv.1] at hc
            simp at hc
          · show (s.answers ++
                [({ questionId := q.id, selectedOptionId := oid,
                    isCorrect := oid == q.correctOptionId } : UserAnswer)]).length ≤
              s.currentIndex + 1
            rw [List.length_append]
            simp only [List.length_cons, List.length_nil]
            omega
          · intro h0
            exact absurd (show (filteredQuestions s).length = 0 from h0) (by omega)
        case _ => exact ⟨h1, h2, h3, h4, h5, h6⟩
  | next =>
    simp only [step]
    split
    case isFalse => exact ⟨h1, h2, h3, h4, h5, h6⟩
    case isTrue hg =>
      simp only [Bool.and_eq_true] at hg
      obtain ⟨hqv, hsub⟩ := hg
      rw [questionView_iff] at hqv
      have h2' : s.answers.length ≤ s.currentIndex + 1 := by simpa [hsub] using h2
      unfold handleNext
      split
      case isTrue hlt =>
        refine ⟨?_, ?_, fun h0 => absurd (show (filteredQuestions s).length = 0 from h0) hqv.2.2,
          fun _ => show s.currentIndex + 1 < (filteredQuestions s).length by omega, h5, h6⟩
        · intro hc
          rw [hqv.1] at hc
          simp at hc
        · show s.answers.length ≤ s.currentIndex + 1 + 0
          omega
      case isFalse => exact ⟨h1, h2, h3, h4, h5, h6⟩
  | restart js =>
    simp only [step]
    split
    · unfold handleRestart
      exact ⟨fun _ => ⟨rfl, rfl, rfl⟩, by simp, fun _ => ⟨rfl, rfl⟩, fun h0 => h0,
        h5, ⟨js, rfl⟩⟩
    · exact ⟨h1, h2, h3, h4, h5, h6⟩
  | setDifficulty f =>
    simp only [step]
    split
    case isTrue hg =>
      rw [questionView_iff] at hg
      refine ⟨?_, by simp, fun _ => ⟨rfl, rfl⟩, fun h0 => h0, h5, h6⟩
      intro hc
      rw [hg.1] at hc
      simp at hc
    case isFalse => exact ⟨h1, h2, h3, h4, h5, h6⟩
  | setCategory f =>
    simp only [step]
    split
    case isTrue hg =>
      rw [questionView_iff] at hg
      refine ⟨?_, by simp, fun _ => ⟨rfl, rfl⟩, fun h0 => h0, h5, h6⟩
      intro hc
      rw [hg.1] at hc
      simp at hc
    case isFalse => exact ⟨h1, h2, h3, h4, h5, h6⟩
  | homeSetDifficulty f =>
    simp only [step]
    split
    case isTrue hg =>
      rw [Bool.not_eq_true'] at hg
      obtain ⟨hi0, ha0, hsub0⟩ := h1 hg
      refine ⟨fun _ => ⟨hi0, ha0, hsub0⟩, h2, fun _ => ⟨hi0, ha0⟩, ?_, h5, h6⟩
      intro h0
      rw [hi0]
      exact h0
    case isFalse => exact ⟨h1, h2, h3, h4, h5, h6⟩
  | homeSetTimer d =>
    simp only [step]
    split
    case isTrue hg =>
      simp only [Bool.and_eq_true, Bool.not_eq_true', Bool.or_eq_true, beq_iff_eq] at hg
      refine ⟨h1, h2, h3, h4, ?_, h6⟩
      tauto
    case isFalse => exact ⟨h1, h2, h3, h4, h5, h6⟩
  | resetFilters =>
    simp only [step]
    split
    case isTrue hg =>
      simp only [Bool.and_eq_true, Bool.not_eq_true', beq_iff_eq] at hg
      obtain ⟨⟨hs, _⟩, h0⟩ := hg
      obtain ⟨hi0, ha0⟩ := h3 h0
      refine ⟨?_, h2, fun _ => ⟨hi0, ha0⟩, ?_, h5, h6⟩
      · intro hc
        rw [hs] at hc
        simp at hc
      · intro h0'
        rw [hi0]
        exact h0'
    case isFalse => exact ⟨h1, h2, h3, h4, h5, h6⟩
  | tick =>
    simp only [step]
    unfold tick
    split
    · split
      · unfold timerEffect
        split
        · exact ⟨h1, h2, h3, h4, h5, h6⟩
        · exact ⟨h1, h2, h3, h4, h5, h6⟩
      · exact ⟨h1, h2, h3, h4, h5, h6⟩
    · exact ⟨h1, h2, h3, h4, h5, h6⟩

theorem inv_of_reachable (bank : List Question) (s : AppState) (h : Reachable bank s) :
    Inv bank s := by
  induction h with
  | init js => exact inv_init bank js
  | step e hr ih => exact inv_step bank _ _ ih

theorem timerEffect_timeRemaining (s : AppState) :
    (timerEffect s).timeRemaining = s.timeRemaining := by
  unfold timerEffect
  split <;> rfl

theorem timerEffect_answers (s : AppState) : (timerEffect s).answers = s.answers := by
  unfold timerEffect
  split <;> rfl

theorem tick_answers (s : AppState) : (tick s).answers = s.answers := by
  unfold tick
  split
  · split
    · rw [timerEffect_answers]
    · rfl
  · rfl

theorem tick_active (s : AppState) (t : Nat) (hs : s.isStarted = true)
    (hf : s.isFinished = false) (ht : s.timeRemaining = some (t + 1)) :
    tick s = timerEffect { s with timeRemaining := some t } := by
  unfold tick
  simp only [ht, hs, hf]
  rfl

theorem tick_decrement_only (s : AppState) (t : Nat) (hs : s.isStarted = true)
    (hf : s.isFinished = false) (ht : s.timeRemaining = some (t + 2)) :
    tick s = { s with timeRemaining := some (t + 1) } := by
  rw [tick_active s (t + 1) hs hf ht]
  unfold timerEffect
  rw [if_neg]
  simp

theorem tick_finishes (s : AppState) (hs : s.isStarted = true)
    (hf : s.isFinished = false) (ht : s.timeRemaining = some 1) :
    (tick s).isFinished = true := by
  rw [tick_active s 0 hs hf ht]
  unfold timerEffect
  rw [if_pos ⟨rfl, hf⟩]

theorem tick_iterate_finishes (n : Nat) (s : AppState) (hs : s.isStarted = true)
    (hf : s.isFinished = false) (ht : s.timeRemaining = some (n + 1)) :
    (tick^[n + 1] s).isFinished = true ∧ (tick^[n + 1] s).answers = s.answers := by
  induction n generalizing s with
  | zero =>
    rw [Function.iterate_one]
    exact ⟨tick_finishes s hs hf ht, tick_answers s⟩
  | succ n ih =>
    rw [Function.iterate_succ_apply]
    rw [tick_decrement_only s n hs hf ht]
    obtain ⟨hfin, hans⟩ := ih { s with timeRemaining := some (n + 1) } hs hf rfl
    exact ⟨hfin, hans⟩

/-- C1 (amended): when an option with a non-empty id is selected (the source's
truthiness guard) and a current question exists, `handleSubmit` appends exactly
one `UserAnswer` graded by equality with `correctOptionId` and sets
`isSubmitted := true` — regardless of whether the question was already
submitted; and it is a no-op exactly when the selection is falsy or there is
no current question.  The guard against re-submission lives in the UI (the
submit button is not rendered once `isSubmitted` holds), not in
`handleSubmit`. -/
theorem c1_submit_behavior :
    (∀ (s : AppState) (oid : String) (q : Question),
        s.selectedOptionId = some oid → oid ≠ "" → currentQuestion s = some q →
        handleSubmit s =
          { s with
            answers := s.answers ++
              [{ questionId := q.id, selectedOptionId := oid,
                 isCorrect := oid == q.correctOptionId }]
            isSubmitted := true })
    ∧ (∀ s : AppState, selectedTruthy s = false → handleSubmit s = s)
    ∧ (∀ s : AppState, currentQuestion s = none → handleSubmit s = s) := by
  refine ⟨?_, ?_, ?_⟩
  · intro s oid q hsel hne hq
    have hst : selectedTruthy s = true := by simp [selectedTruthy, hsel, hne]
    unfold handleSubmit
    rw [hst]
    simp only [Bool.true_eq_false, if_false, hsel, hq]
  · intro s hft
    unfold handleSubmit
    rw [hft, if_pos rfl]
  · intro s hq
    unfold handleSubmit
    rw [hq]
    split
    · rfl
    · cases s.selectedOptionId <;> rfl

theorem c1_submit_behavior_witness :
    pickedState.selectedOptionId = some "a" ∧ "a" ≠ "" ∧ currentQuestion pickedState = some q1 ∧
    handleSubmit pickedState =
      { pickedState with
        answers := pickedState.answers ++
          [{ questionId := q1.id, selectedOptionId := "a", isCorrect := "a" == q1.correctOptionId }]
        isSubmitted := true } :=
  ⟨by decide, by decide, by decide,
    c1_submit_behavior.1 pickedState "a" q1 (by decide) (by decide) (by decide)⟩

/-- C1 counterexample: in the reachable state reached by start, select `"a"`,
submit — where the current question is already submitted and the selection is
still stored — calling `handleSubmit` again is not a no-op: it appends a
duplicate answer.  This refutes "submit() is a no-op whenever the current
question is already submitted". -/
theorem c1_submit_not_noop_when_submitted :
    Reachable bank1 submittedState ∧
    submittedState.isSubmitted = true ∧
    selectedTruthy submittedState = true ∧
    (currentQuestion submittedState).isSome = true ∧
    handleSubmit submittedState ≠ submittedState := by
  refine ⟨?_, by decide, by decide, by decide, by decide⟩
  exact Reachable.step _ (Reachable.step _ (Reachable.step _ (Reachable.init [])))

/-- C2: `shuffleArray` is the Fisher-Yates loop (for `i` from the last index
down to `1`, swap positions `i` and the random draw `j ∈ [0, i]`), its output
is a permutation of its input for every draw sequence, and it is unbiased:
over the uniform space of valid draw sequences, every permutation of a
duplicate-free input is produced exactly once, hence with equal
probability `1/n!`. -/
theorem c2_shuffle_fisher_yates :
    (∀ (α : Type) (l : List α) (i j : Nat) (js : List Nat),
        fyLoop l (i + 1) (j :: js) = fyLoop (listSwap l (i + 1) j) i js ∧
        shuffleArray l js = fyLoop l (l.length - 1) js)
    ∧ (∀ (α : Type) (l : List α) (js : List Nat), shuffleArray l js ~ l)
    ∧ (∀ (α : Type) (_inst : DecidableEq α) (l : List α), l.Nodup → ∀ p : List α, p ~ l →
        ((choiceSeqs (l.length - 1)).map (fun js => shuffleArray l js)).count p = 1) :=
  ⟨fun _ _ _ _ _ => ⟨rfl, rfl⟩, fun _ l js => shuffleArray_perm l js,
    fun _ _ l hnd p hp => shuffle_uniform l hnd p hp⟩

theorem c2_shuffle_fisher_yates_witness :
    ([0, 1, 2] : List Nat).Nodup ∧ ([2, 0, 1] : List Nat) ~ [0, 1, 2] ∧
    ((choiceSeqs 2).map (fun js => shuffleArray ([0, 1, 2] : List Nat) js)).count [2, 0, 1] = 1 :=
  ⟨by decide, by decide,
    c2_shuffle_fisher_yates.2.2 Nat instDecidableEqNat [0, 1, 2] (by decide) [2, 0, 1] (by decide)⟩

/-- C3 counterexample: starting a session on a one-question bank and then
narrowing the difficulty filter in progress yields a reachable state whose
filtered set is empty while the index is `0` — and `0 < 0` fails, so the index
is not within `[0, filteredQuestions.length)` as the claim requires even for
empty filtered sets. -/
theorem c3_index_bound_fails_on_empty_filter :
    Reachable bank1 emptyFilterState ∧
    (filteredQuestions emptyFilterState).length = 0 ∧
    emptyFilterState.currentIndex = 0 ∧
    ¬(emptyFilterState.currentIndex < (filteredQuestions emptyFilterState).length) := by
  refine ⟨?_, by decide, by decide, by decide⟩
  exact Reachable.step _ (Reachable.step _ (Reachable.init []))

/-- C3 (amended): in every reachable state the index is within
`[0, filteredQuestions.length)` whenever the filtered set is non-empty; when
the active filters reduce the filtered set to zero questions the index is
pinned to `0` (so it sits at the lower bound of the empty range rather than
inside it). -/
theorem c3_index_bound (bank : List Question) (s : AppState) (h : Reachable bank s) :
    s.currentIndex < (filteredQuestions s).length ∨
      ((filteredQuestions s).length = 0 ∧ s.currentIndex = 0) := by
  obtain ⟨-, -, h3, h4, -, -⟩ := inv_of_reachable bank s h
  rcases Nat.eq_zero_or_pos (filteredQuestions s).length with h0 | hpos
  · exact Or.inr ⟨h0, (h3 h0).1⟩
  · exact Or.inl (h4 hpos)

theorem c3_index_bound_witness :
    (mkInitialState bank1 []).currentIndex < (filteredQuestions (mkInitialState bank1 [])).length ∨
      ((filteredQuestions (mkInitialState bank1 [])).length = 0 ∧
        (mkInitialState bank1 []).currentIndex = 0) :=
  c3_index_bound bank1 (mkInitialState bank1 []) (Reachable.init [])

/-- C4: while the session is started, not finished, and the remaining time is
positive, a tick decrements the remaining time by exactly 1 (and, while the
result is still positive, changes nothing else); when the remaining time
reaches exactly 0 while not finished, the session is forced to finished; ticks
never touch the answers list (so after a timeout it holds exactly the
questions actually submitted); and from remaining time `n + 1`, after `n + 1`
ticks the state is finished with the answers unchanged — in particular 120
ticks finish a 120-second session. -/
theorem c4_timer_behavior :
    (∀ (s : AppState) (t : Nat), s.isStarted = true → s.isFinished = false →
        s.timeRemaining = some (t + 1) → (tick s).timeRemaining = some t)
    ∧ (∀ (s : AppState) (t : Nat), s.isStarted = true → s.isFinished = false →
        s.timeRemaining = some (t + 2) → tick s = { s with timeRemaining := some (t + 1) })
    ∧ (∀ s : AppState, s.isFinished = false → s.timeRemaining = some 0 →
        (timerEffect s).isFinished = true)
    ∧ (∀ (s : AppState), s.isStarted = true → s.isFinished = false →
        s.timeRemaining = some 1 → (tick s).isFinished = true)
    ∧ (∀ s : AppState, (tick s).answers = s.answers)
    ∧ (∀ (s : AppState) (n : Nat), s.isStarted = true → s.isFinished = false →
        s.timeRemaining = some (n + 1) →
        (tick^[n + 1] s).isFinished = true ∧ (tick^[n + 1] s).answers = s.answers) := by
  refine ⟨?_, tick_decrement_only, ?_, tick_finishes, tick_answers,
    fun s n hs hf ht => tick_iterate_finishes n s hs hf ht⟩
  · intro s t hs hf ht
    rw [tick_active s t hs hf ht, timerEffect_timeRemaining]
  · intro s hf ht
    unfold timerEffect
    rw [if_pos ⟨ht, hf⟩]

theorem c4_timer_behavior_witness :
    timedState.isStarted = true ∧ timedState.isFinished = false ∧
    timedState.timeRemaining = some 120 ∧
    (tick^[120] timedState).isFinished = true ∧
    (tick^[120] timedState).answers = timedState.answers := by
  refine ⟨by decide, by decide, by decide, ?_, ?_⟩
  · exact (c4_timer_behavior.2.2.2.2.2 timedState 119 (by decide) (by decide) (by decide)).1
  · exact (c4_timer_behavior.2.2.2.2.2 timedState 119 (by decide) (by decide) (by decide)).2

/-- C5: the qualitative evaluation is a pure function of the percentage with
exactly the five tiers `= 100`, `≥ 85`, `≥ 70`, `≥ 50`, `< 50`, each bound to
a fixed feedback string; over `[0, 100]` the tiers have inclusive lower
bounds and are exhaustive and non-overlapping; and for 20 answered questions
with 15 correct the percentage is `round(100 · 15/20) = 75`, which selects
the `≥ 70` tier's text. -/
theorem c5_evaluation_tiers :
    (∀ p : ℚ, getDetailedEvaluation p = tierText (tierIndex p))
    ∧ (∀ p : ℚ, 0 ≤ p → p ≤ 100 →
        (tierIndex p = 0 ↔ p = 100) ∧
        (tierIndex p = 1 ↔ 85 ≤ p ∧ p < 100) ∧
        (tierIndex p = 2 ↔ 70 ≤ p ∧ p < 85) ∧
        (tierIndex p = 3 ↔ 50 ≤ p ∧ p < 70) ∧
        (tierIndex p = 4 ↔ p < 50))
    ∧ (percentageOf 15 20 = 75 ∧ getDetailedEvaluation (percentageOf 15 20) = tierText 2) := by
  have hpct : percentageOf 15 20 = 75 := by
    unfold percentageOf jsRound
    rw [if_pos (by norm_num)]
    norm_num
  refine ⟨?_, ?_, hpct, ?_⟩
  · intro p
    unfold tierIndex
    split_ifs with h1 h2 h3 h4
    · rw [h1]; rfl
    · show getDetailedEvaluation p = getDetailedEvaluation 85
      unfold getDetailedEvaluation
      rw [if_neg h1, if_pos h2, if_neg (by norm_num : ¬(85 : ℚ) = 100),
        if_pos (le_refl (85 : ℚ))]
    · show getDetailedEvaluation p = getDetailedEvaluation 70
      unfold getDetailedEvaluation
      rw [if_neg h1, if_neg h2, if_pos h3, if_neg (by norm_num : ¬(70 : ℚ) = 100),
        if_neg (by norm_num : ¬(85 : ℚ) ≤ 70), if_pos (le_refl (70 : ℚ))]
    · show getDetailedEvaluation p = getDetailedEvaluation 50
      unfold getDetailedEvaluation
      rw [if_neg h1, if_neg h2, if_neg h3, if_pos h4, if_neg (by norm_num : ¬(50 : ℚ) = 100),
        if_neg (by norm_num : ¬(85 : ℚ) ≤ 50), if_neg (by norm_num : ¬(70 : ℚ) ≤ 50),
        if_pos (le_refl (50 : ℚ))]
    · show getDetailedEvaluation p = getDetailedEvaluation 0
      unfold getDetailedEvaluation
      rw [if_neg h1, if_neg h2, if_neg h3, if_neg h4, if_neg (by norm_num : ¬(0 : ℚ) = 100),
        if_neg (by norm_num : ¬(85 : ℚ) ≤ 0), if_neg (by norm_num : ¬(70 : ℚ) ≤ 0),
        if_neg (by norm_num : ¬(50 : ℚ) ≤ 0)]
  · intro p h0 h100
    unfold tierIndex
    split_ifs with h1 h2 h3 h4
    · subst h1
      norm_num
    · exact ⟨⟨fun h => absurd h (by norm_num), fun h => absurd h h1⟩,
        ⟨fun _ => ⟨h2, lt_of_le_of_ne h100 h1⟩, fun _ => rfl⟩,
        ⟨fun h => absurd h (by norm_num), fun h => absurd h.2 (not_lt.2 h2)⟩,
        ⟨fun h => absurd h (by norm_num), fun h => absurd h.2 (not_lt.2 (by linarith))⟩,
        ⟨fun h => absurd h (by norm_num), fun h => absurd h (not_lt.2 (by linarith))⟩⟩
    · exact ⟨⟨fun h => absurd h (by norm_num), fun h => absurd h h1⟩,
        ⟨fun h => absurd h (by norm_num), fun h => absurd h.1 h2⟩,
        ⟨fun _ => ⟨h3, not_le.1 h2⟩, fun _ => rfl⟩,
        ⟨fun h => absurd h (by norm_num), fun h => absurd h.2 (not_lt.2 h3)⟩,
        ⟨fun h => absurd h (by norm_num), fun h => absurd h (not_lt.2 (by linarith))⟩⟩
    · exact ⟨⟨fun h => absurd h (by norm_num), fun h => absurd h h1⟩,
        ⟨fun h => absurd h (by norm_num), fun h => absurd h.1 h2⟩,
        ⟨fun h => absurd h (by norm_num), fun h => absurd h.1 h3⟩,
        ⟨fun _ => ⟨h4, not_le.1 h3⟩, fun _ => rfl⟩,
        ⟨fun h => absurd h (by norm_num), fun h => absurd h (not_lt.2 (by linarith))⟩⟩
    · exact ⟨⟨fun h => absurd h (by norm_num), fun h => absurd h h1⟩,
        ⟨fun h => absurd h (by norm_num), fun h => absurd h.1 h2⟩,
        ⟨fun h => absurd h (by norm_num), fun h => absurd h.1 h3⟩,
        ⟨fun h => absurd h (by norm_num), fun h => absurd h.1 h4⟩,
        ⟨fun _ => not_le.1 h4, fun _ => rfl⟩⟩
  · rw [hpct]
    show getDetailedEvaluation 75 = getDetailedEvaluation 70
    unfold getDetailedEvaluation
    rw [if_neg (by norm_num : ¬(75 : ℚ) = 100), if_neg (by norm_num : ¬(85 : ℚ) ≤ 75),
      if_pos (by norm_num : (70 : ℚ) ≤ 75), if_neg (by norm_num : ¬(70 : ℚ) = 100),
      if_neg (by norm_num : ¬(85 : ℚ) ≤ 70), if_pos (le_refl (70 : ℚ))]

theorem c5_evaluation_tiers_witness :
    (0 : ℚ) ≤ 75 ∧ (75 : ℚ) ≤ 100 ∧
    ((tierIndex 75 = 0 ↔ (75 : ℚ) = 100) ∧
      (tierIndex 75 = 1 ↔ 85 ≤ (75 : ℚ) ∧ (75 : ℚ) < 100) ∧
      (tierIndex 75 = 2 ↔ 70 ≤ (75 : ℚ) ∧ (75 : ℚ) < 85) ∧
      (tierIndex 75 = 3 ↔ 50 ≤ (75 : ℚ) ∧ (75 : ℚ) < 70) ∧
      (tierIndex 75 = 4 ↔ (75 : ℚ) < 50)) :=
  ⟨by norm_num, by norm_num, c5_evaluation_tiers.2.1 75 (by norm_num) (by norm_num)⟩

/-- C6: the working set is sampled at session creation and at restart as the
first 20 elements of a shuffled copy of the bank, so its size is
`min (bank size) 20`; no other transition touches it; and the filtered set is
always a subsequence of the sample (filters hide questions without resampling
or reordering). -/
theorem c6_working_set :
    (∀ (bank : List Question) (js : List Nat),
        ((shuffleArray bank js).take 20).length = min bank.length 20)
    ∧ (∀ (bank : List Question) (js : List Nat),
        (mkInitialState bank js).allQuestions = (shuffleArray bank js).take 20)
    ∧ (∀ (bank : List Question) (js : List Nat) (s : AppState),
        (handleRestart bank js s).allQuestions = (shuffleArray bank js).take 20)
    ∧ (∀ (bank : List Question) (e : Ev) (s : AppState), (∀ js, e ≠ Ev.restart js) →
        (step bank e s).allQuestions = s.allQuestions)
    ∧ (∀ s : AppState, (filteredQuestions s).Sublist s.allQuestions) := by
  refine ⟨?_, fun _ _ => rfl, fun _ _ _ => rfl, ?_, fun s => List.filter_sublist _⟩
  · intro bank js
    rw [List.length_take, length_shuffleArray, Nat.min_comm]
  · intro bank e s hne
    cases e with
    | start now =>
      simp only [step]
      split
      · unfold handleStart
        split <;> rfl
      · rfl
    | selectOpt oid =>
      simp only [step]
      split
      · unfold handleOptionClick
        split <;> rfl
      · rfl
    | submit =>
      simp only [step]
      split
      · unfold handleSubmit
        split
        · rfl
        · split <;> rfl
      · rfl
    | next =>
      simp only [step]
      split
      · unfold handleNext
        split <;> rfl
      · rfl
    | restart js => exact absurd rfl (hne js)
    | setDifficulty f =>
      simp only [step]
      split <;> rfl
    | setCategory f =>
      simp only [step]
      split <;> rfl
    | homeSetDifficulty f =>
      simp only [step]
      split <;> rfl
    | homeSetTimer d =>
      simp only [step]
      split <;> rfl
    | resetFilters =>
      simp only [step]
      split <;> rfl
    | tick =>
      simp only [step]
      unfold tick
      split
      · split
        · unfold timerEffect
          split <;> rfl
        · rfl
      · rfl

theorem c6_working_set_witness :
    (step bank1 Ev.tick (mkInitialState bank1 [])).allQuestions =
      (mkInitialState bank1 []).allQuestions :=
  c6_working_set.2.2.2.1 bank1 Ev.tick (mkInitialState bank1 [])
    (fun _ h => Ev.noConfusion h)

/-- C7: in every reachable state the score equals the number of recorded
answers with `isCorrect = true`, and the score never exceeds the size of the
filtered working set. -/
theorem c7_score_invariant (bank : List Question) (s : AppState) (h : Reachable bank s) :
    score s = s.answers.countP (fun a => a.isCorrect) ∧ score s ≤ total s := by
  obtain ⟨-, h2, h3, h4, -, -⟩ := inv_of_reachable bank s h
  refine ⟨(List.countP_eq_length_filter _ _).symm, ?_⟩
  have hsc : score s ≤ s.answers.length := List.length_filter_le _ _
  rcases Nat.eq_zero_or_pos (filteredQuestions s).length with h0 | hpos
  · have hans : s.answers = [] := (h3 h0).2
    simp only [score, total, hans, List.filter_nil, List.length_nil, h0, Nat.le_refl]
  · have hidx := h4 hpos
    have := h2
    rcases hsub : s.isSubmitted with _ | _ <;> rw [hsub] at this <;> simp at this <;>
      unfold total <;> omega

theorem c7_score_invariant_witness :
    score (mkInitialState bank1 []) =
      (mkInitialState bank1 []).answers.countP (fun a => a.isCorrect) ∧
    score (mkInitialState bank1 []) ≤ total (mkInitialState bank1 []) :=
  c7_score_invariant bank1 (mkInitialState bank1 []) (Reachable.init [])

/-- C8: starting with an empty filtered set is a no-op (the state is returned
unchanged), and starting with a non-empty filtered set marks the session
started, records the start timestamp, and initialises the remaining time to
the configured timer duration (the configurable durations being 120, 300 and
600 seconds) or leaves it untouched when no timer is configured. -/
theorem c8_start_guard (bank : List Question) (s : AppState) (now : Nat)
    (h : Reachable bank s) :
    ((filteredQuestions s).length = 0 → handleStart now s = s)
    ∧ ((filteredQuestions s).length ≠ 0 →
        (handleStart now s).isStarted = true ∧
        (handleStart now s).startTime = some now ∧
        (∀ d, s.timerDuration = some d → (handleStart now s).timeRemaining = some d) ∧
        (s.timerDuration = none → (handleStart now s).timeRemaining = s.timeRemaining)) := by
  constructor
  · intro h0
    unfold handleStart
    rw [if_pos h0]
  · intro h0
    obtain ⟨-, -, -, -, h5, -⟩ := inv_of_reachable bank s h
    unfold handleStart
    rw [if_neg h0]
    refine ⟨rfl, rfl, ?_, ?_⟩
    · intro d hd
      simp only [hd]
      rcases h5 with h5 | h5 | h5 | h5
      · rw [h5] at hd
        cases hd
      all_goals
        rw [h5] at hd
        obtain rfl := Option.some.inj hd
        norm_num
    · intro hnone
      simp only [hnone]

theorem c8_start_guard_witness :
    ((filteredQuestions (mkInitialState bank1 [])).length = 0 →
      handleStart 7 (mkInitialState bank1 []) = mkInitialState bank1 [])
    ∧ ((filteredQuestions (mkInitialState bank1 [])).length ≠ 0 →
        (handleStart 7 (mkInitialState bank1 [])).isStarted = true ∧
        (handleStart 7 (mkInitialState bank1 [])).startTime = some 7 ∧
        (∀ d, (mkInitialState bank1 []).timerDuration = some d →
          (handleStart 7 (mkInitialState bank1 [])).timeRemaining = some d) ∧
        ((mkInitialState bank1 []).timerDuration = none →
          (handleStart 7 (mkInitialState bank1 [])).timeRemaining =
            (mkInitialState bank1 []).timeRemaining)) :=
  c8_start_guard bank1 (mkInitialState bank1 []) 7 (Reachable.init [])

/-- C9: an in-progress difficulty or category filter change resets the index
to 0 and clears the answers, but leaves `selectedOptionId` and `isSubmitted`
untouched — so a just-submitted question leaves the first question of the new
filtered set presented as already submitted with the old selection pending,
even though the answers list is empty. -/
theorem c9_filter_change_frame :
    (∀ (bank : List Question) (s : AppState) (f : Option Difficulty),
        questionView s = true →
        (step bank (.setDifficulty f) s).selectedOptionId = s.selectedOptionId ∧
        (step bank (.setDifficulty f) s).isSubmitted = s.isSubmitted ∧
        (step bank (.setDifficulty f) s).currentIndex = 0 ∧
        (step bank (.setDifficulty f) s).answers = [] ∧
        (step bank (.setDifficulty f) s).filterDifficulty = f)
    ∧ (∀ (bank : List Question) (s : AppState) (f : Option GrammarCategory),
        questionView s = true →
        (step bank (.setCategory f) s).selectedOptionId = s.selectedOptionId ∧
        (step bank (.setCategory f) s).isSubmitted = s.isSubmitted ∧
        (step bank (.setCategory f) s).currentIndex = 0 ∧
        (step bank (.setCategory f) s).answers = [] ∧
        (step bank (.setCategory f) s).filterCategory = f) := by
  constructor <;> intro bank s f hg <;> simp [step, if_pos hg]

theorem c9_filter_change_frame_witness :
    (step bank1 (.setDifficulty (some .Advanced)) submittedState).selectedOptionId =
        submittedState.selectedOptionId ∧
      (step bank1 (.setDifficulty (some .Advanced)) submittedState).isSubmitted =
        submittedState.isSubmitted ∧
      (step bank1 (.setDifficulty (some .Advanced)) submittedState).currentIndex = 0 ∧
      (step bank1 (.setDifficulty (some .Advanced)) submittedState).answers = [] ∧
      (step bank1 (.setDifficulty (some .Advanced)) submittedState).filterDifficulty =
        some .Advanced :=
  c9_filter_change_frame.1 bank1 submittedState (some .Advanced) (by decide)

/-- C10: `handleRestart` leaves the difficulty filter, the category filter,
the timer duration (and the start timestamp) untouched, and resets exactly
the working set, index, answers, selection, submitted flag, finished and
started flags, and remaining time. -/
theorem c10_restart_frame (bank : List Question) (js : List Nat) (s : AppState) :
    (handleRestart bank js s).filterDifficulty = s.filterDifficulty ∧
    (handleRestart bank js s).filterCategory = s.filterCategory ∧
    (handleRestart bank js s).timerDuration = s.timerDuration ∧
    (handleRestart bank js s).startTime = s.startTime ∧
    (handleRestart bank js s).allQuestions = (shuffleArray bank js).take 20 ∧
    (handleRestart bank js s).currentIndex = 0 ∧
    (handleRestart bank js s).selectedOptionId = none ∧
    (handleRestart bank js s).isSubmitted = false ∧
    (handleRestart bank js s).answers = [] ∧
    (handleRestart bank js s).isFinished = false ∧
    (handleRestart bank js s).isStarted = false ∧
    (handleRestart bank js s).timeRemaining = none :=
  ⟨rfl, rfl, rfl, rfl, rfl, rfl, rfl, rfl, rfl, rfl, rfl, rfl⟩

end GrammarMaster
